import Mathlib

/-!
Verification of the Economic Network Simulator's core engine.

The repository source under `src/` contains only the Dash UI glue
(`src/callbacks.py`); the `EconomyNetwork` class it drives (imported from
`src.sim`) is not part of the given sources. Following the specification,
which reconstructs the engine's contract from its call sites, the engine is
modelled here from the spec's words. Numbers are modelled as rationals
(exact arithmetic; Python floats carry no NaN in any reachable value here,
so the "NaN or out-of-range" validation reduces to the range check).
-/

/-- Modelled from the spec: one time step's full economic state. The spec's
Snapshot carries `alpha`, `rho` (propensities in [0,1]) and the per-propensity
outlier flag sequences. Since the host re-feeds only `sensitivity`/`memory`
alongside the serialized blob, the Snapshot must also carry "enough state to
recompute" the matrix deterministically: the structural parameters `s_h`,
`s_f` are stored per snapshot. -/
structure Snapshot where
  alpha : ℚ
  rho : ℚ
  s_h : ℚ
  s_f : ℚ
  outliersAlpha : List Bool
  outliersRho : List Bool
deriving DecidableEq, Repr

/-- Modelled from the spec: History is the ordered, time-indexed collection of
Snapshots, keys monotonically increasing with the maximum key current. It is
embedded as an association list in insertion order. -/
abbrev History := List (ℕ × Snapshot)

/-- Modelled from the spec: the error taxonomy of section 7. -/
inductive EngineError where
  | configurationError
  | validationError
  | invalidStateError
deriving DecidableEq, Repr

/-- Modelled from the spec: the engine. `sh0`/`sf0` record the construction
parameters; `sys` is the first-class, externally replaceable History. -/
structure EconomyNetwork where
  sh0 : ℚ
  sf0 : ℚ
  sensitivity : ℚ
  memory : ℕ
  sys : History
deriving DecidableEq, Repr

/-- Clamp a rational to the unit interval. -/
def clamp01 (x : ℚ) : ℚ := max 0 (min 1 x)

/-- Modelled from the spec: the exact numeric update rule is left open by the
spec ("a deterministic, clamped, continuous rule"); we choose relaxation of
the propensity toward the structural parameter at rate `sensitivity`. -/
def updateAlpha (prev : Snapshot) (sens : ℚ) : ℚ :=
  clamp01 (prev.alpha + sens * (prev.s_h - prev.alpha))

/-- Modelled from the spec: analogous update for the firms' propensity. -/
def updateRho (prev : Snapshot) (sens : ℚ) : ℚ :=
  clamp01 (prev.rho + sens * (prev.s_f - prev.rho))

/-- The most recent `window` values of a series (all of it when shorter). -/
def lastWindow (series : List ℚ) (window : ℕ) : List ℚ :=
  series.drop (series.length - window)

/-- Arithmetic mean of a window (0 for the empty window). -/
def winMean (w : List ℚ) : ℚ := w.sum / (w.length : ℚ)

/-- Population variance of a window (0 for the empty window). -/
def winVar (w : List ℚ) : ℚ :=
  (w.map (fun x => (x - winMean w) ^ 2)).sum / (w.length : ℚ)

/-- Modelled from the spec: flag values whose squared deviation from the
window mean exceeds `(2 * std)^2`, i.e. a mean/standard-deviation statistic
with fixed multiplier 2, phrased without square roots. Windows with fewer
than 2 points and zero-spread windows yield all-false. -/
def flagsFor (w : List ℚ) : List Bool :=
  if w.length < 2 then w.map (fun _ => false)
  else if winVar w = 0 then w.map (fun _ => false)
  else w.map (fun x => decide (4 * winVar w < (x - winMean w) ^ 2))

/-- Modelled from the spec: `detect_outliers(series, window)` evaluates the
most recent `window` values and returns one flag per retained point,
oldest first. -/
def detect_outliers (series : List ℚ) (window : ℕ) : List Bool :=
  flagsFor (lastWindow series window)

/-- The alpha series of a History, in insertion order. -/
def alphaSeries (h : History) : List ℚ := h.map (fun p => p.2.alpha)

/-- The rho series of a History, in insertion order. -/
def rhoSeries (h : History) : List ℚ := h.map (fun p => p.2.rho)

/-- Maximum key of a History (0 when empty). -/
def maxKey (h : History) : ℕ := (h.map Prod.fst).foldr max 0

/-- Snapshot stored at key `t`, if any. -/
def lookupT (h : History) (t : ℕ) : Option Snapshot :=
  (h.find? (fun p => p.1 == t)).map Prod.snd

/-- An optional override is valid when absent or within [0,1]. -/
def validOverride : Option ℚ → Bool
  | none => true
  | some v => decide (0 ≤ v ∧ v ≤ 1)

/-- Modelled from the spec: engine construction. Invalid construction
parameters (propensities or structural parameters outside [0,1], or
`memory < 1`) fail with `ConfigurationError` before any state is created;
otherwise History starts with a single Snapshot at `t = 0` holding the given
propensities and an all-false outliers map. -/
def construct (params : ℚ × ℚ) (props : ℚ × ℚ) (sens : ℚ) (mem : ℕ) :
    Except EngineError EconomyNetwork :=
  if 0 ≤ params.1 ∧ params.1 ≤ 1 ∧ 0 ≤ params.2 ∧ params.2 ≤ 1 ∧
     0 ≤ props.1 ∧ props.1 ≤ 1 ∧ 0 ≤ props.2 ∧ props.2 ≤ 1 ∧ 1 ≤ mem then
    .ok { sh0 := params.1, sf0 := params.2, sensitivity := sens, memory := mem,
          sys := [(0, { alpha := props.1, rho := props.2,
                        s_h := params.1, s_f := params.2,
                        outliersAlpha := [false], outliersRho := [false] })] }
  else .error .configurationError

/-- The Snapshot appended by a successful step: overrides replace the
computed propensities for the new step, structural parameters are carried
forward, and outlier flags are recomputed over the new window. -/
def nextSnapshot (sens : ℚ) (mem : ℕ) (sys : History) (prev : Snapshot)
    (aOv rOv : Option ℚ) : Snapshot :=
  let a := aOv.getD (updateAlpha prev sens)
  let r := rOv.getD (updateRho prev sens)
  { alpha := a, rho := r, s_h := prev.s_h, s_f := prev.s_f,
    outliersAlpha := detect_outliers (alphaSeries sys ++ [a]) mem,
    outliersRho := detect_outliers (rhoSeries sys ++ [r]) mem }

/-- Modelled from the spec: the step operation on the History alone, made
explicit so that step results manifestly depend only on `sensitivity`,
`memory` and the History. Validation failures and a missing current Snapshot
return the History unchanged (step is all-or-nothing); otherwise exactly one
Snapshot is appended at `maxKey + 1`. -/
def stepCore (sens : ℚ) (mem : ℕ) (sys : History) (aOv rOv : Option ℚ) :
    Option EngineError × History :=
  if validOverride aOv && validOverride rOv then
    match lookupT sys (maxKey sys) with
    | none => (some .invalidStateError, sys)
    | some prev =>
        (none, sys ++ [(maxKey sys + 1, nextSnapshot sens mem sys prev aOv rOv)])
  else (some .validationError, sys)

/-- Modelled from the spec: `step(alpha_override?, rho_override?)`. The first
component is the raised error, if any; the second is the engine afterwards. -/
def step (e : EconomyNetwork) (aOv rOv : Option ℚ) :
    Option EngineError × EconomyNetwork :=
  ((stepCore e.sensitivity e.memory e.sys aOv rOv).1,
   { e with sys := (stepCore e.sensitivity e.memory e.sys aOv rOv).2 })

/-- The engine after a step attempt (unchanged when the step failed). -/
def stepEngine (e : EconomyNetwork) (aOv rOv : Option ℚ) : EconomyNetwork :=
  (step e aOv rOv).2

/-- The engine after a sequence of step attempts. -/
def runEngine (e : EconomyNetwork) (ovs : List (Option ℚ × Option ℚ)) :
    EconomyNetwork :=
  ovs.foldl (fun acc ov => stepEngine acc ov.1 ov.2) e

/-- Modelled from the spec: the matrix projector on a History. Entries are
households-to-households retention `s_h * (1 - alpha)`, consumption flow
`c = alpha`, wage flow `w = rho`, and firms-to-firms retention
`s_f * (1 - rho)`, read off the latest Snapshot; row sums are at most 1 by
construction. Returned as `(hh, c, w, ff)` for the matrix `[[hh, c], [w, ff]]`. -/
def matrixOfSys (h : History) : Option (ℚ × ℚ × ℚ × ℚ) :=
  (lookupT h (maxKey h)).map
    (fun s => (s.s_h * (1 - s.alpha), s.alpha, s.rho, s.s_f * (1 - s.rho)))

/-- Modelled from the spec: `get_matrix()` derives the 2x2 matrix from the
latest Snapshot. It takes the engine and returns only the matrix, so it is
read-only by type: no History is produced or modified. -/
def get_matrix (e : EconomyNetwork) : Option (ℚ × ℚ × ℚ × ℚ) :=
  matrixOfSys e.sys

/-- The observable results of a sequence of step-then-read interactions:
after each step attempt, the raised error (if any) and the matrix. -/
def runTrace (e : EconomyNetwork) :
    List (Option ℚ × Option ℚ) → List (Option EngineError × Option (ℚ × ℚ × ℚ × ℚ))
  | [] => []
  | ov :: rest =>
      ((step e ov.1 ov.2).1, get_matrix (stepEngine e ov.1 ov.2)) ::
        runTrace (stepEngine e ov.1 ov.2) rest

/-- Serialization of the History: JSON stringifies the integer keys; the
decimal digit string of each key is modelled by `Nat.digits 10`. Snapshot
payloads (rationals and booleans) round-trip exactly. -/
def dumpSys (h : History) : List (List ℕ × Snapshot) :=
  h.map (fun p => (Nat.digits 10 p.1, p.2))

/-- Deserialization: keys are parsed back to integers (`int(k)` in the glue),
modelled by `Nat.ofDigits 10`. -/
def loadSys (blob : List (List ℕ × Snapshot)) : History :=
  blob.map (fun p => (Nat.ofDigits 10 p.1, p.2))

/-- Rehydration as performed by the glue code: construct a fresh engine with
dummy parameters `[0, 0]` and `[0.5, 0.5]` and the current `sensitivity` and
`memory` inputs, then replace its History with the deserialized blob. -/
def rehydrate (blob : List (List ℕ × Snapshot)) (sens : ℚ) (mem : ℕ) :
    Except EngineError EconomyNetwork :=
  (construct (0, 0) (1/2, 1/2) sens mem).map
    (fun e => { e with sys := loadSys blob })

/-- All propensities and structural parameters of a Snapshot lie in [0,1]. -/
def SnapInRange (s : Snapshot) : Prop :=
  0 ≤ s.alpha ∧ s.alpha ≤ 1 ∧ 0 ≤ s.rho ∧ s.rho ≤ 1 ∧
  0 ≤ s.s_h ∧ s.s_h ≤ 1 ∧ 0 ≤ s.s_f ∧ s.s_f ≤ 1

/-- Every Snapshot of a History is in range. -/
def SysInRange (h : History) : Prop := ∀ p ∈ h, SnapInRange p.2

theorem loadSys_dumpSys (h : History) : loadSys (dumpSys h) = h := by
  induction h with
  | nil => rfl
  | cons p t ih =>
    simp only [dumpSys, loadSys, List.map_cons] at ih ⊢
    rw [Nat.ofDigits_digits]
    simp [ih]

theorem clamp01_nonneg (x : ℚ) : 0 ≤ clamp01 x := le_max_left 0 _

theorem clamp01_le_one (x : ℚ) : clamp01 x ≤ 1 :=
  max_le (by norm_num) (min_le_left 1 x)

theorem validOverride_some {v : ℚ} (h : validOverride (some v) = true) :
    0 ≤ v ∧ v ≤ 1 := by
  simpa [validOverride] using h

theorem maxKey_cons (p : ℕ × Snapshot) (t : History) :
    maxKey (p :: t) = max p.1 (maxKey t) := rfl

theorem lookupT_maxKey_isSome (h : History) (hne : h ≠ []) :
    (lookupT h (maxKey h)).isSome := by
  induction h with
  | nil => exact absurd rfl hne
  | cons p t ih =>
    rw [maxKey_cons]
    by_cases hk : p.1 = max p.1 (maxKey t)
    · rw [lookupT, List.find?_cons_of_pos _ (by simpa using hk.symm)]
      rfl
    · rcases max_choice p.1 (maxKey t) with h1 | h1
      · exact absurd h1.symm hk
      · have ht : t ≠ [] := by
          intro h0
          subst h0
          simp [maxKey] at h1
          exact hk (by simp [h1, maxKey])
        rw [h1, lookupT, List.find?_cons_of_neg]
        · exact ih ht
        · simp only [beq_iff_eq]
          intro h2
          exact hk (by rw [h1, h2])

theorem lookupT_mem {h : History} {t : ℕ} {s : Snapshot}
    (hl : lookupT h t = some s) : ∃ k, (k, s) ∈ h := by
  unfold lookupT at hl
  cases hf : h.find? (fun p => p.1 == t) with
  | none => simp [hf] at hl
  | some q =>
    have hq : q ∈ h := List.mem_of_find?_eq_some hf
    have hl2 : q.2 = s := by simpa [hf] using hl
    exact ⟨q.1, by rw [← hl2]; simpa using hq⟩

theorem sum_of_constant (l : List ℚ) (c : ℚ) (h : ∀ x ∈ l, x = c) :
    l.sum = (l.length : ℚ) * c := by
  induction l with
  | nil => simp
  | cons a t ih =>
    simp only [List.sum_cons, List.length_cons]
    rw [h a (by simp), ih (fun x hx => h x (by simp [hx]))]
    push_cast
    ring

theorem winMean_of_constant (w : List ℚ) (c : ℚ) (hne : w ≠ [])
    (h : ∀ x ∈ w, x = c) : winMean w = c := by
  have hlen : (w.length : ℚ) ≠ 0 :=
    Nat.cast_ne_zero.mpr (Nat.pos_iff_ne_zero.mp (List.length_pos.mpr hne))
  rw [winMean, sum_of_constant w c h]
  exact mul_div_cancel_left₀ c hlen

theorem winVar_of_constant (w : List ℚ) (c : ℚ) (h : ∀ x ∈ w, x = c) :
    winVar w = 0 := by
  cases hw : w with
  | nil => simp [winVar]
  | cons a t =>
    rw [← hw]
    have hm : winMean w = c := winMean_of_constant w c (by simp [hw]) h
    have hz : ∀ y ∈ w.map (fun x => (x - winMean w) ^ 2), y = 0 := by
      intro y hy
      rcases List.mem_map.mp hy with ⟨x, hx, rfl⟩
      rw [h x hx, hm]
      ring
    rw [winVar, sum_of_constant _ 0 hz, mul_zero, zero_div]

theorem flagsFor_length (w : List ℚ) : (flagsFor w).length = w.length := by
  unfold flagsFor
  split
  · simp
  · split <;> simp

theorem flagsFor_all_false_of_short (w : List ℚ) (hw : w.length < 2) :
    ∀ b ∈ flagsFor w, b = false := by
  intro b hb
  rw [flagsFor, if_pos hw] at hb
  rcases List.mem_map.mp hb with ⟨x, _, rfl⟩
  rfl

theorem flagsFor_all_false_of_constant (w : List ℚ) (c : ℚ)
    (h : ∀ x ∈ w, x = c) : ∀ b ∈ flagsFor w, b = false := by
  intro b hb
  unfold flagsFor at hb
  rw [winVar_of_constant w c h] at hb
  by_cases hlen : w.length < 2
  · rw [if_pos hlen] at hb
    rcases List.mem_map.mp hb with ⟨x, _, rfl⟩
    rfl
  · rw [if_neg hlen, if_pos rfl] at hb
    rcases List.mem_map.mp hb with ⟨x, _, rfl⟩
    rfl

theorem detect_outliers_length (s : List ℚ) (w : ℕ) :
    (detect_outliers s w).length = (lastWindow s w).length := by
  rw [detect_outliers, flagsFor_length]

theorem lastWindow_length_le (s : List ℚ) (w : ℕ) :
    (lastWindow s w).length ≤ w := by
  rw [lastWindow, List.length_drop]
  omega

theorem stepCore_ok (sens : ℚ) (mem : ℕ) (sys : History) (a r : Option ℚ)
    (prev : Snapshot) (hp : lookupT sys (maxKey sys) = some prev)
    (ha : validOverride a = true) (hr : validOverride r = true) :
    stepCore sens mem sys a r =
      (none, sys ++ [(maxKey sys + 1, nextSnapshot sens mem sys prev a r)]) := by
  rw [stepCore, ha, hr]
  simp [hp]

theorem stepCore_error_sys (sens : ℚ) (mem : ℕ) (sys : History)
    (a r : Option ℚ) (err : EngineError)
    (he : (stepCore sens mem sys a r).1 = some err) :
    (stepCore sens mem sys a r).2 = sys := by
  unfold stepCore at he ⊢
  split at he
  · split at he
    · split
      · rfl
      · simp_all
    · split
      · simp_all
      · simp_all
  · split
    · simp_all
    · rfl

theorem alphaSeries_append (h : History) (p : ℕ × Snapshot) :
    alphaSeries (h ++ [p]) = alphaSeries h ++ [p.2.alpha] := by
  simp [alphaSeries]

theorem rhoSeries_append (h : History) (p : ℕ × Snapshot) :
    rhoSeries (h ++ [p]) = rhoSeries h ++ [p.2.rho] := by
  simp [rhoSeries]

theorem stepEngine_sensitivity (e : EconomyNetwork) (a r : Option ℚ) :
    (stepEngine e a r).sensitivity = e.sensitivity := rfl

theorem stepEngine_memory (e : EconomyNetwork) (a r : Option ℚ) :
    (stepEngine e a r).memory = e.memory := rfl

theorem stepEngine_sys (e : EconomyNetwork) (a r : Option ℚ) :
    (stepEngine e a r).sys = (stepCore e.sensitivity e.memory e.sys a r).2 := rfl

theorem step_fst (e : EconomyNetwork) (a r : Option ℚ) :
    (step e a r).1 = (stepCore e.sensitivity e.memory e.sys a r).1 := rfl

theorem nextSnapshot_alpha (sens : ℚ) (mem : ℕ) (sys : History)
    (prev : Snapshot) (a r : Option ℚ) :
    (nextSnapshot sens mem sys prev a r).alpha = a.getD (updateAlpha prev sens) := rfl

theorem nextSnapshot_rho (sens : ℚ) (mem : ℕ) (sys : History)
    (prev : Snapshot) (a r : Option ℚ) :
    (nextSnapshot sens mem sys prev a r).rho = r.getD (updateRho prev sens) := rfl

theorem nextSnapshot_s_h (sens : ℚ) (mem : ℕ) (sys : History)
    (prev : Snapshot) (a r : Option ℚ) :
    (nextSnapshot sens mem sys prev a r).s_h = prev.s_h := rfl

theorem nextSnapshot_s_f (sens : ℚ) (mem : ℕ) (sys : History)
    (prev : Snapshot) (a r : Option ℚ) :
    (nextSnapshot sens mem sys prev a r).s_f = prev.s_f := rfl

theorem nextSnapshot_outliersAlpha (sens : ℚ) (mem : ℕ) (sys : History)
    (prev : Snapshot) (a r : Option ℚ) :
    (nextSnapshot sens mem sys prev a r).outliersAlpha =
      detect_outliers (alphaSeries sys ++ [a.getD (updateAlpha prev sens)]) mem := rfl

theorem nextSnapshot_outliersRho (sens : ℚ) (mem : ℕ) (sys : History)
    (prev : Snapshot) (a r : Option ℚ) :
    (nextSnapshot sens mem sys prev a r).outliersRho =
      detect_outliers (rhoSeries sys ++ [r.getD (updateRho prev sens)]) mem := rfl

theorem nextSnapshot_inRange (sens : ℚ) (mem : ℕ) (sys : History)
    (prev : Snapshot) (a r : Option ℚ) (hprev : SnapInRange prev)
    (ha : validOverride a = true) (hr : validOverride r = true) :
    SnapInRange (nextSnapshot sens mem sys prev a r) := by
  obtain ⟨_, _, _, _, hsh0, hsh1, hsf0, hsf1⟩ := hprev
  have hA : 0 ≤ a.getD (updateAlpha prev sens) ∧ a.getD (updateAlpha prev sens) ≤ 1 := by
    cases a with
    | none => exact ⟨clamp01_nonneg _, clamp01_le_one _⟩
    | some v => simpa using validOverride_some ha
  have hR : 0 ≤ r.getD (updateRho prev sens) ∧ r.getD (updateRho prev sens) ≤ 1 := by
    cases r with
    | none => exact ⟨clamp01_nonneg _, clamp01_le_one _⟩
    | some v => simpa using validOverride_some hr
  unfold SnapInRange
  rw [nextSnapshot_alpha, nextSnapshot_rho, nextSnapshot_s_h, nextSnapshot_s_f]
  exact ⟨hA.1, hA.2, hR.1, hR.2, hsh0, hsh1, hsf0, hsf1⟩

theorem sysInRange_stepEngine (e : EconomyNetwork) (a r : Option ℚ)
    (hs : SysInRange e.sys) : SysInRange (stepEngine e a r).sys := by
  rw [stepEngine_sys]
  unfold stepCore
  split
  · rename_i hvalid
    have ha : validOverride a = true := by
      cases hva : validOverride a <;> simp [hva] at hvalid ⊢
    have hr : validOverride r = true := by
      cases hvr : validOverride r <;> simp [hvr] at hvalid ⊢
    split
    · exact hs
    · rename_i prev hp
      intro p hp2
      rcases List.mem_append.mp hp2 with hmem | hmem
      · exact hs p hmem
      · have hpe : p = (maxKey e.sys + 1,
            nextSnapshot e.sensitivity e.memory e.sys prev a r) := by
          simpa using hmem
        subst hpe
        obtain ⟨k, hk⟩ := lookupT_mem hp
        exact nextSnapshot_inRange _ _ _ _ _ _ (hs (k, prev) hk) ha hr
  · exact hs

theorem sysInRange_runEngine (e : EconomyNetwork)
    (ovs : List (Option ℚ × Option ℚ)) (hs : SysInRange e.sys) :
    SysInRange (runEngine e ovs).sys := by
  induction ovs generalizing e with
  | nil => exact hs
  | cons ov rest ih =>
    exact ih (stepEngine e ov.1 ov.2) (sysInRange_stepEngine e ov.1 ov.2 hs)

theorem construct_ok (params props : ℚ × ℚ) (sens : ℚ) (mem : ℕ)
    (e : EconomyNetwork) (hc : construct params props sens mem = .ok e) :
    e.sensitivity = sens ∧ e.memory = mem ∧ SysInRange e.sys := by
  unfold construct at hc
  split at hc
  · rename_i hcond
    obtain ⟨h1, h2, h3, h4, h5, h6, h7, h8, _⟩ := hcond
    cases hc
    refine ⟨rfl, rfl, ?_⟩
    intro p hp
    simp only [List.mem_singleton] at hp
    subst hp
    exact ⟨h5, h6, h7, h8, h1, h2, h3, h4⟩
  · cases hc

theorem runTrace_congr (ovs : List (Option ℚ × Option ℚ))
    (e₁ e₂ : EconomyNetwork) (hsens : e₁.sensitivity = e₂.sensitivity)
    (hmem : e₁.memory = e₂.memory) (hsys : e₁.sys = e₂.sys) :
    runTrace e₁ ovs = runTrace e₂ ovs := by
  induction ovs generalizing e₁ e₂ with
  | nil => rfl
  | cons ov rest ih =>
    have hcore : stepCore e₁.sensitivity e₁.memory e₁.sys ov.1 ov.2 =
        stepCore e₂.sensitivity e₂.memory e₂.sys ov.1 ov.2 := by
      rw [hsens, hmem, hsys]
    simp only [runTrace]
    refine congrArg₂ _ ?_ ?_
    · rw [step_fst, step_fst, hcore, get_matrix, get_matrix,
          stepEngine_sys, stepEngine_sys, hcore]
    · exact ih (stepEngine e₁ ov.1 ov.2) (stepEngine e₂ ov.1 ov.2)
        (by rw [stepEngine_sensitivity, stepEngine_sensitivity, hsens])
        (by rw [stepEngine_memory, stepEngine_memory, hmem])
        (by rw [stepEngine_sys, stepEngine_sys, hcore])

theorem matrixOfSys_bounds (h : History) (hs : SysInRange h)
    (hh c w ff : ℚ) (hm : matrixOfSys h = some (hh, c, w, ff)) :
    (0 ≤ hh ∧ hh ≤ 1) ∧ (0 ≤ c ∧ c ≤ 1) ∧ (0 ≤ w ∧ w ≤ 1) ∧
      (0 ≤ ff ∧ ff ≤ 1) ∧ hh + c ≤ 1 ∧ w + ff ≤ 1 := by
  unfold matrixOfSys at hm
  cases hl : lookupT h (maxKey h) with
  | none => simp [hl] at hm
  | some s =>
    rw [hl] at hm
    obtain ⟨k, hk⟩ := lookupT_mem hl
    obtain ⟨ha0, ha1, hr0, hr1, hsh0, hsh1, hsf0, hsf1⟩ := hs (k, s) hk
    have hm2 : (s.s_h * (1 - s.alpha), s.alpha, s.rho, s.s_f * (1 - s.rho)) =
        (hh, c, w, ff) := by simpa using hm
    simp only [Prod.mk.injEq] at hm2
    obtain ⟨h1, h2, h3, h4⟩ := hm2
    subst h1 h2 h3 h4
    refine ⟨⟨?_, ?_⟩, ⟨ha0, ha1⟩, ⟨hr0, hr1⟩, ⟨?_, ?_⟩, ?_, ?_⟩
    · exact mul_nonneg hsh0 (by linarith)
    · nlinarith
    · exact mul_nonneg hsf0 (by linarith)
    · nlinarith
    · nlinarith [mul_nonneg (by linarith : (0:ℚ) ≤ 1 - s.s_h) (by linarith : (0:ℚ) ≤ 1 - s.alpha)]
    · nlinarith [mul_nonneg (by linarith : (0:ℚ) ≤ 1 - s.s_f) (by linarith : (0:ℚ) ≤ 1 - s.rho)]

/-- A concrete Snapshot used in the witnesses. -/
def sampleSnap : Snapshot :=
  { alpha := 1/2, rho := 1/2, s_h := 1/2, s_f := 1/2,
    outliersAlpha := [false], outliersRho := [false] }

/-- A concrete engine used in the witnesses; it is exactly the result of
`construct (1/2, 1/2) (1/2, 1/2) (1/2) 10`. -/
def sampleEngine : EconomyNetwork :=
  { sh0 := 1/2, sf0 := 1/2, sensitivity := 1/2, memory := 10,
    sys := [(0, sampleSnap)] }

theorem construct_sampleEngine :
    construct (1/2, 1/2) (1/2, 1/2) (1/2) 10 = .ok sampleEngine := by
  unfold construct
  rw [if_pos (by norm_num)]
  rfl

/-- The engine produced by rehydrating `sampleEngine`'s serialized History
with `sensitivity = 0`, `memory = 1`. -/
def rehydratedSample : EconomyNetwork :=
  { sh0 := 0, sf0 := 0, sensitivity := 0, memory := 1,
    sys := [(0, sampleSnap)] }

/-- A concrete dummy-parameter engine, `construct (0,0) (1/2,1/2) 0 1`. -/
def dummyEngineA : EconomyNetwork :=
  { sh0 := 0, sf0 := 0, sensitivity := 0, memory := 1,
    sys := [(0, { alpha := 1/2, rho := 1/2, s_h := 0, s_f := 0,
                  outliersAlpha := [false], outliersRho := [false] })] }

/-- A concrete engine with different construction parameters,
`construct (1,1) (0,0) 0 1`. -/
def dummyEngineB : EconomyNetwork :=
  { sh0 := 1, sf0 := 1, sensitivity := 0, memory := 1,
    sys := [(0, { alpha := 0, rho := 0, s_h := 1, s_f := 1,
                  outliersAlpha := [false], outliersRho := [false] })] }

/-- A concrete engine at the spec's baseline: `s_h = s_f = 0.5`,
`alpha = rho = 0.3`. -/
def baselineSnap : Snapshot :=
  { alpha := 3/10, rho := 3/10, s_h := 1/2, s_f := 1/2,
    outliersAlpha := [false], outliersRho := [false] }

/-- The engine holding `baselineSnap`, as built by
`construct (1/2, 1/2) (3/10, 3/10) (1/2) 10`. -/
def baselineEngine : EconomyNetwork :=
  { sh0 := 1/2, sf0 := 1/2, sensitivity := 1/2, memory := 10,
    sys := [(0, baselineSnap)] }

/-- C1: for every engine state, serializing the History, constructing a fresh
engine (the glue's rehydration with dummy parameters `[0, 0]` and
`[0.5, 0.5]`), replacing its History with the deserialized copy, and calling
`get_matrix()` returns the same 2x2 matrix as calling `get_matrix()` on the
original engine before serialization. -/
theorem claim_C1_roundtrip_matrix (e e' : EconomyNetwork) (sens : ℚ) (mem : ℕ)
    (h : rehydrate (dumpSys e.sys) sens mem = .ok e') :
    get_matrix e' = get_matrix e := by
  unfold rehydrate at h
  cases hc : construct (0, 0) (1/2, 1/2) sens mem with
  | error err => rw [hc] at h; cases h
  | ok e₀ =>
    rw [hc] at h
    have h2 : { e₀ with sys := loadSys (dumpSys e.sys) } = e' := by
      simpa [Except.map] using h
    rw [← h2]
    show matrixOfSys (loadSys (dumpSys e.sys)) = matrixOfSys e.sys
    rw [loadSys_dumpSys]

theorem claim_C1_witness :
    rehydrate (dumpSys sampleEngine.sys) 0 1 = .ok rehydratedSample ∧
    get_matrix rehydratedSample = get_matrix sampleEngine := by
  have h : rehydrate (dumpSys sampleEngine.sys) 0 1 = .ok rehydratedSample := by
    unfold rehydrate construct
    rw [if_pos (by norm_num)]
    simp only [Except.map]
    rw [loadSys_dumpSys]
    rfl
  exact ⟨h, claim_C1_roundtrip_matrix sampleEngine rehydratedSample 0 1 h⟩

/-- C2: two engines constructed with different initial parameters and
propensities but the same sensitivity and memory, after both Histories are
replaced with the same deserialized blob, produce identical step errors and
matrices under any sequence of step-and-read interactions: the observable
results do not depend on the dummy construction values. -/
theorem claim_C2_rehydration_independent (p₁ q₁ p₂ q₂ : ℚ × ℚ) (sens : ℚ)
    (mem : ℕ) (e₁ e₂ : EconomyNetwork)
    (h₁ : construct p₁ q₁ sens mem = .ok e₁)
    (h₂ : construct p₂ q₂ sens mem = .ok e₂)
    (blob : List (List ℕ × Snapshot)) (ovs : List (Option ℚ × Option ℚ)) :
    runTrace { e₁ with sys := loadSys blob } ovs =
      runTrace { e₂ with sys := loadSys blob } ovs := by
  obtain ⟨hs₁, hm₁, -⟩ := construct_ok _ _ _ _ _ h₁
  obtain ⟨hs₂, hm₂, -⟩ := construct_ok _ _ _ _ _ h₂
  exact runTrace_congr ovs _ _ (by simp [hs₁, hs₂]) (by simp [hm₁, hm₂]) rfl

theorem claim_C2_witness :
    construct (0, 0) (1/2, 1/2) 0 1 = .ok dummyEngineA ∧
    construct (1, 1) (0, 0) 0 1 = .ok dummyEngineB ∧
    runTrace { dummyEngineA with sys := loadSys (dumpSys sampleEngine.sys) }
        [(none, none)] =
      runTrace { dummyEngineB with sys := loadSys (dumpSys sampleEngine.sys) }
        [(none, none)] := by
  have hA : construct (0, 0) (1/2, 1/2) 0 1 = .ok dummyEngineA := by
    unfold construct
    rw [if_pos (by norm_num)]
    rfl
  have hB : construct (1, 1) (0, 0) 0 1 = .ok dummyEngineB := by
    unfold construct
    rw [if_pos (by norm_num)]
    rfl
  exact ⟨hA, hB, claim_C2_rehydration_independent (0, 0) (1/2, 1/2) (1, 1) (0, 0)
    0 1 dummyEngineA dummyEngineB hA hB (dumpSys sampleEngine.sys) [(none, none)]⟩

/-- C3: on an engine with non-empty History, `step` with a valid
`alpha_override = v` appends one new Snapshot whose `alpha` is exactly `v`
while its `rho` follows the normal update rule, and symmetrically for
`rho_override`; previous Snapshots are untouched (the new History is the old
one with a single Snapshot appended). -/
theorem claim_C3_override (e : EconomyNetwork) (v : ℚ) (prev : Snapshot)
    (hp : lookupT e.sys (maxKey e.sys) = some prev)
    (h0 : 0 ≤ v) (h1 : v ≤ 1) :
    ((step e (some v) none).1 = none ∧
      ∃ s, (step e (some v) none).2.sys = e.sys ++ [(maxKey e.sys + 1, s)] ∧
        s.alpha = v ∧ s.rho = updateRho prev e.sensitivity) ∧
    ((step e none (some v)).1 = none ∧
      ∃ s, (step e none (some v)).2.sys = e.sys ++ [(maxKey e.sys + 1, s)] ∧
        s.rho = v ∧ s.alpha = updateAlpha prev e.sensitivity) := by
  have hv : validOverride (some v) = true := by simp [validOverride, h0, h1]
  have hn : validOverride none = true := rfl
  constructor
  · have hc := stepCore_ok e.sensitivity e.memory e.sys (some v) none prev hp hv hn
    refine ⟨by rw [step_fst, hc],
      nextSnapshot e.sensitivity e.memory e.sys prev (some v) none, ?_, rfl, rfl⟩
    show (stepCore e.sensitivity e.memory e.sys (some v) none).2 = _
    rw [hc]
  · have hc := stepCore_ok e.sensitivity e.memory e.sys none (some v) prev hp hn hv
    refine ⟨by rw [step_fst, hc],
      nextSnapshot e.sensitivity e.memory e.sys prev none (some v), ?_, rfl, rfl⟩
    show (stepCore e.sensitivity e.memory e.sys none (some v)).2 = _
    rw [hc]

theorem claim_C3_witness :
    ((step sampleEngine (some (4/5)) none).1 = none ∧
      ∃ s, (step sampleEngine (some (4/5)) none).2.sys =
          sampleEngine.sys ++ [(maxKey sampleEngine.sys + 1, s)] ∧
        s.alpha = 4/5 ∧ s.rho = updateRho sampleSnap sampleEngine.sensitivity) ∧
    ((step sampleEngine none (some (4/5))).1 = none ∧
      ∃ s, (step sampleEngine none (some (4/5))).2.sys =
          sampleEngine.sys ++ [(maxKey sampleEngine.sys + 1, s)] ∧
        s.rho = 4/5 ∧ s.alpha = updateAlpha sampleSnap sampleEngine.sensitivity) :=
  claim_C3_override sampleEngine (4/5) sampleSnap rfl (by norm_num) (by norm_num)

/-- C4: for every engine constructed with a valid configuration and every
finite sequence of step calls with valid inputs, every `alpha` and `rho`
stored in every Snapshot of the History lies within [0, 1]. -/
theorem claim_C4_props_in_unit_interval (params props : ℚ × ℚ) (sens : ℚ)
    (mem : ℕ) (e : EconomyNetwork) (ovs : List (Option ℚ × Option ℚ))
    (hc : construct params props sens mem = .ok e)
    (_hovs : ∀ ov ∈ ovs, validOverride ov.1 = true ∧ validOverride ov.2 = true) :
    ∀ p ∈ (runEngine e ovs).sys,
      0 ≤ p.2.alpha ∧ p.2.alpha ≤ 1 ∧ 0 ≤ p.2.rho ∧ p.2.rho ≤ 1 := by
  obtain ⟨-, -, hs⟩ := construct_ok _ _ _ _ _ hc
  intro p hp
  obtain ⟨a0, a1, r0, r1, -, -, -, -⟩ := sysInRange_runEngine e ovs hs p hp
  exact ⟨a0, a1, r0, r1⟩

theorem claim_C4_witness :
    0 ≤ sampleSnap.alpha ∧ sampleSnap.alpha ≤ 1 ∧
    0 ≤ sampleSnap.rho ∧ sampleSnap.rho ≤ 1 :=
  claim_C4_props_in_unit_interval (1/2, 1/2) (1/2, 1/2) (1/2) 10 sampleEngine
    [] construct_sampleEngine (by simp)
    (0, sampleSnap) (by simp [runEngine, sampleEngine])

/-- C5: whenever `step` fails, the History is exactly the same after the
failed call as before it; moreover an out-of-range override fails with
`ValidationError` and stepping with an empty History fails with
`InvalidStateError` (NaN inputs have no rational counterpart, so the spec's
"NaN or out-of-range" validation is the range check here). -/
theorem claim_C5_failure_atomic (e : EconomyNetwork) (a r : Option ℚ) :
    (∀ err, (step e a r).1 = some err → (step e a r).2.sys = e.sys) ∧
    (¬(validOverride a = true ∧ validOverride r = true) →
      (step e a r).1 = some EngineError.validationError) ∧
    (validOverride a = true → validOverride r = true → e.sys = [] →
      (step e a r).1 = some EngineError.invalidStateError) := by
  refine ⟨?_, ?_, ?_⟩
  · intro err herr
    rw [step_fst] at herr
    show (stepCore e.sensitivity e.memory e.sys a r).2 = e.sys
    exact stepCore_error_sys _ _ _ _ _ _ herr
  · intro hinval
    rw [step_fst, stepCore]
    have : (validOverride a && validOverride r) = false := by
      cases hva : validOverride a <;> cases hvr : validOverride r <;>
        simp_all
    rw [this]
    simp
  · intro hva hvr hemp
    rw [step_fst, stepCore, hva, hvr, hemp]
    rfl

theorem claim_C5_witness :
    (step sampleEngine (some 2) none).1 = some EngineError.validationError ∧
    (step sampleEngine (some 2) none).2.sys = sampleEngine.sys := by
  have h := claim_C5_failure_atomic sampleEngine (some 2) none
  have h1 : (step sampleEngine (some 2) none).1 =
      some EngineError.validationError := by
    refine h.2.1 ?_
    intro hcontra
    have h2 := hcontra.1
    norm_num [validOverride] at h2
  exact ⟨h1, h.1 _ h1⟩

/-- C6: on an engine whose History has maximum key `T`, a successful step
adds exactly one new Snapshot keyed `T + 1`: the new History is the old one
with that single entry appended (so no key is removed, no existing Snapshot
is changed, and the History is never truncated), and its length grows by
exactly one. -/
theorem claim_C6_frame (e : EconomyNetwork) (a r : Option ℚ) (prev : Snapshot)
    (hp : lookupT e.sys (maxKey e.sys) = some prev)
    (ha : validOverride a = true) (hr : validOverride r = true) :
    (step e a r).1 = none ∧
    ∃ s, (step e a r).2.sys = e.sys ++ [(maxKey e.sys + 1, s)] ∧
      (step e a r).2.sys.length = e.sys.length + 1 := by
  have hc := stepCore_ok e.sensitivity e.memory e.sys a r prev hp ha hr
  have hsys : (step e a r).2.sys = e.sys ++
      [(maxKey e.sys + 1, nextSnapshot e.sensitivity e.memory e.sys prev a r)] := by
    show (stepCore e.sensitivity e.memory e.sys a r).2 = _
    rw [hc]
  refine ⟨by rw [step_fst, hc], nextSnapshot e.sensitivity e.memory e.sys prev a r,
    hsys, ?_⟩
  rw [hsys]
  simp

theorem claim_C6_witness :
    (step sampleEngine none none).1 = none ∧
    ∃ s, (step sampleEngine none none).2.sys =
        sampleEngine.sys ++ [(maxKey sampleEngine.sys + 1, s)] ∧
      (step sampleEngine none none).2.sys.length = sampleEngine.sys.length + 1 :=
  claim_C6_frame sampleEngine none none sampleSnap rfl rfl rfl

/-- C7: `detect_outliers` returns all-false flags whenever the evaluation
window holds fewer than 2 points, and all-false flags whenever all values in
the window are equal (zero spread produces no flag and no division error);
in particular a constant series of 10 values `0.5` over window 10 yields
all-false. -/
theorem claim_C7_degenerate_windows (series : List ℚ) (window : ℕ) :
    ((lastWindow series window).length < 2 →
      ∀ b ∈ detect_outliers series window, b = false) ∧
    (∀ c : ℚ, (∀ x ∈ lastWindow series window, x = c) →
      ∀ b ∈ detect_outliers series window, b = false) ∧
    detect_outliers (List.replicate 10 (1/2 : ℚ)) 10 = List.replicate 10 false := by
  refine ⟨?_, ?_, ?_⟩
  · intro hlen b hb
    exact flagsFor_all_false_of_short _ hlen b hb
  · intro c hc b hb
    exact flagsFor_all_false_of_constant _ c hc b hb
  · have hconst : ∀ x ∈ lastWindow (List.replicate 10 (1/2 : ℚ)) 10, x = 1/2 := by
      intro x hx
      rw [lastWindow] at hx
      exact List.eq_of_mem_replicate (List.mem_of_mem_drop hx)
    rw [detect_outliers, List.eq_replicate_iff]
    refine ⟨?_, flagsFor_all_false_of_constant _ (1/2) hconst⟩
    rw [flagsFor_length, lastWindow, List.length_drop]
    simp

theorem claim_C7_witness :
    detect_outliers (List.replicate 10 (1/2 : ℚ)) 10 = List.replicate 10 false :=
  (claim_C7_degenerate_windows (List.replicate 10 (1/2 : ℚ)) 10).2.2

/-- C8: the Snapshot appended by a successful step stores outlier flag
sequences for `alpha` and `rho` whose lengths equal the number of retained
points in the current window of the plotted series (oldest first) and are at
most `memory`, so indexing the plotted window series by any flag index is in
bounds. -/
theorem claim_C8_flags_aligned (e : EconomyNetwork) (a r : Option ℚ)
    (prev : Snapshot) (hp : lookupT e.sys (maxKey e.sys) = some prev)
    (ha : validOverride a = true) (hr : validOverride r = true) :
    ∃ s, (step e a r).2.sys = e.sys ++ [(maxKey e.sys + 1, s)] ∧
      s.outliersAlpha.length =
        (lastWindow (alphaSeries (step e a r).2.sys) e.memory).length ∧
      s.outliersRho.length =
        (lastWindow (rhoSeries (step e a r).2.sys) e.memory).length ∧
      s.outliersAlpha.length ≤ e.memory ∧ s.outliersRho.length ≤ e.memory ∧
      (∀ i, i < s.outliersAlpha.length →
        i < (lastWindow (alphaSeries (step e a r).2.sys) e.memory).length) ∧
      (∀ i, i < s.outliersRho.length →
        i < (lastWindow (rhoSeries (step e a r).2.sys) e.memory).length) := by
  have hc := stepCore_ok e.sensitivity e.memory e.sys a r prev hp ha hr
  set s := nextSnapshot e.sensitivity e.memory e.sys prev a r with hsdef
  have hsys : (step e a r).2.sys = e.sys ++ [(maxKey e.sys + 1, s)] := by
    show (stepCore e.sensitivity e.memory e.sys a r).2 = _
    rw [hc]
  have hAseries : alphaSeries (step e a r).2.sys =
      alphaSeries e.sys ++ [a.getD (updateAlpha prev e.sensitivity)] := by
    rw [hsys, alphaSeries_append, hsdef, nextSnapshot_alpha]
  have hRseries : rhoSeries (step e a r).2.sys =
      rhoSeries e.sys ++ [r.getD (updateRho prev e.sensitivity)] := by
    rw [hsys, rhoSeries_append, hsdef, nextSnapshot_rho]
  have hA : s.outliersAlpha.length =
      (lastWindow (alphaSeries (step e a r).2.sys) e.memory).length := by
    rw [hsdef, nextSnapshot_outliersAlpha, detect_outliers_length, hAseries]
  have hR : s.outliersRho.length =
      (lastWindow (rhoSeries (step e a r).2.sys) e.memory).length := by
    rw [hsdef, nextSnapshot_outliersRho, detect_outliers_length, hRseries]
  refine ⟨s, hsys, hA, hR, ?_, ?_, ?_, ?_⟩
  · rw [hA]; exact lastWindow_length_le _ _
  · rw [hR]; exact lastWindow_length_le _ _
  · intro i hi; rw [← hA]; exact hi
  · intro i hi; rw [← hR]; exact hi

theorem claim_C8_witness :
    ∃ s, (step sampleEngine none none).2.sys =
        sampleEngine.sys ++ [(maxKey sampleEngine.sys + 1, s)] ∧
      s.outliersAlpha.length =
        (lastWindow (alphaSeries (step sampleEngine none none).2.sys)
          sampleEngine.memory).length ∧
      s.outliersRho.length =
        (lastWindow (rhoSeries (step sampleEngine none none).2.sys)
          sampleEngine.memory).length ∧
      s.outliersAlpha.length ≤ sampleEngine.memory ∧
      s.outliersRho.length ≤ sampleEngine.memory ∧
      (∀ i, i < s.outliersAlpha.length →
        i < (lastWindow (alphaSeries (step sampleEngine none none).2.sys)
          sampleEngine.memory).length) ∧
      (∀ i, i < s.outliersRho.length →
        i < (lastWindow (rhoSeries (step sampleEngine none none).2.sys)
          sampleEngine.memory).length) :=
  claim_C8_flags_aligned sampleEngine none none sampleSnap rfl rfl rfl

/-- C9: `detect_outliers` is deterministic and idempotent: evaluating the
flags twice on the same window yields identical boolean sequences, and
re-evaluating after the window is complete reproduces exactly the flags the
step stored in the new Snapshot. -/
theorem claim_C9_idempotent (series : List ℚ) (window : ℕ)
    (e : EconomyNetwork) (a r : Option ℚ) (prev : Snapshot)
    (hp : lookupT e.sys (maxKey e.sys) = some prev)
    (ha : validOverride a = true) (hr : validOverride r = true) :
    detect_outliers series window = detect_outliers series window ∧
    ∃ s, (step e a r).2.sys = e.sys ++ [(maxKey e.sys + 1, s)] ∧
      s.outliersAlpha = detect_outliers (alphaSeries (step e a r).2.sys) e.memory ∧
      s.outliersRho = detect_outliers (rhoSeries (step e a r).2.sys) e.memory := by
  have hc := stepCore_ok e.sensitivity e.memory e.sys a r prev hp ha hr
  set s := nextSnapshot e.sensitivity e.memory e.sys prev a r with hsdef
  have hsys : (step e a r).2.sys = e.sys ++ [(maxKey e.sys + 1, s)] := by
    show (stepCore e.sensitivity e.memory e.sys a r).2 = _
    rw [hc]
  refine ⟨rfl, s, hsys, ?_, ?_⟩
  · rw [hsys, alphaSeries_append, hsdef, nextSnapshot_outliersAlpha,
      nextSnapshot_alpha]
  · rw [hsys, rhoSeries_append, hsdef, nextSnapshot_outliersRho,
      nextSnapshot_rho]

theorem claim_C9_witness :
    detect_outliers [(1 : ℚ), 0] 2 = detect_outliers [(1 : ℚ), 0] 2 ∧
    ∃ s, (step sampleEngine none none).2.sys =
        sampleEngine.sys ++ [(maxKey sampleEngine.sys + 1, s)] ∧
      s.outliersAlpha =
        detect_outliers (alphaSeries (step sampleEngine none none).2.sys)
          sampleEngine.memory ∧
      s.outliersRho =
        detect_outliers (rhoSeries (step sampleEngine none none).2.sys)
          sampleEngine.memory :=
  claim_C9_idempotent [(1 : ℚ), 0] 2 sampleEngine none none sampleSnap rfl rfl rfl

/-- C10: on every engine reachable by a valid construction followed by any
sequence of step attempts, `get_matrix()` returns a 2x2 matrix whose four
entries each lie in [0, 1] and whose row sums are at most 1; `get_matrix`
consumes the engine and returns only the matrix, so it leaves the History
unchanged by type. The witness instantiates the spec's baseline
`alpha = rho = 0.3`, `s_h = s_f = 0.5`. -/
theorem claim_C10_matrix_invariant (params props : ℚ × ℚ) (sens : ℚ)
    (mem : ℕ) (e : EconomyNetwork) (ovs : List (Option ℚ × Option ℚ))
    (hh c w ff : ℚ) (hc : construct params props sens mem = .ok e)
    (hm : get_matrix (runEngine e ovs) = some (hh, c, w, ff)) :
    (0 ≤ hh ∧ hh ≤ 1) ∧ (0 ≤ c ∧ c ≤ 1) ∧ (0 ≤ w ∧ w ≤ 1) ∧
      (0 ≤ ff ∧ ff ≤ 1) ∧ hh + c ≤ 1 ∧ w + ff ≤ 1 := by
  obtain ⟨-, -, hs⟩ := construct_ok _ _ _ _ _ hc
  exact matrixOfSys_bounds _ (sysInRange_runEngine e ovs hs) hh c w ff hm

theorem claim_C10_witness :
    get_matrix (runEngine baselineEngine []) =
      some (1/2 * (1 - 3/10), 3/10, 3/10, 1/2 * (1 - 3/10)) ∧
    ((0 ≤ (1/2 : ℚ) * (1 - 3/10) ∧ (1/2 : ℚ) * (1 - 3/10) ≤ 1) ∧
      (0 ≤ (3/10 : ℚ) ∧ (3/10 : ℚ) ≤ 1) ∧ (0 ≤ (3/10 : ℚ) ∧ (3/10 : ℚ) ≤ 1) ∧
      (0 ≤ (1/2 : ℚ) * (1 - 3/10) ∧ (1/2 : ℚ) * (1 - 3/10) ≤ 1) ∧
      (1/2 : ℚ) * (1 - 3/10) + 3/10 ≤ 1 ∧
      (3/10 : ℚ) + 1/2 * (1 - 3/10) ≤ 1) := by
  have hcons : construct (1/2, 1/2) (3/10, 3/10) (1/2) 10 = .ok baselineEngine := by
    unfold construct
    rw [if_pos (by norm_num)]
    rfl
  have hm : get_matrix (runEngine baselineEngine []) =
      some (1/2 * (1 - 3/10), 3/10, 3/10, 1/2 * (1 - 3/10)) := rfl
  exact ⟨hm, claim_C10_matrix_invariant (1/2, 1/2) (3/10, 3/10) (1/2) 10
    baselineEngine [] _ _ _ _ hcons hm⟩
